import Mathlib

/-!
Verification of the stock-news bot core (bot.py): indicator pipeline
(`ema`, `rsi`, `macd`, `analyze_ticker_simple`), the recommendation rule
(`cmd_rekomendasi`), the news deduplication pipeline (`fetch_combined_news`
dedup block and `news_auto_loop` seen-set filter, `update_last_sent`), and
the alert store and its evaluation cycle (`cmd_alert`, `check_alerts_loop`).

Numeric values are modelled over the rationals.  Pandas NaN/inf propagation
in the RSI pipeline is modelled explicitly: series cells are `Option ℚ`
(with `none` standing for NaN) and the final RSI value lives in `PVal`,
which can also be an infinity or NaN.
-/

/-- Result value of a pandas float computation: a finite rational,
positive or negative infinity, or NaN. -/
inductive PVal where
  | num (q : ℚ)
  | pinf
  | ninf
  | nan
deriving DecidableEq, Repr

/-- Python float value as stored in the alerts file: `float(s)` can produce
a finite value, `inf`, `-inf` or `nan`, all of which are accepted. -/
inductive PyFloat where
  | finite (q : ℚ)
  | inf
  | ninf
  | nan
deriving DecidableEq, Repr

/-- `series.ewm(span=period, adjust=False).mean()` recursion after the seed:
`y = (1-a)*prev + a*x` with `a = 2/(period+1)`. -/
def emaGo (a : ℚ) (prev : ℚ) : List ℚ → List ℚ
  | [] => []
  | x :: xs =>
    let y := (1 - a) * prev + a * x
    y :: emaGo a y xs

/-- `ema(series, period)` from bot.py: `series.ewm(span=period, adjust=False).mean()`,
seeded with the first value. -/
def ema (series : List ℚ) (period : ℕ) : List ℚ :=
  match series with
  | [] => []
  | x :: xs => x :: emaGo (2 / (period + 1)) x xs

/-- Tail of `series.diff()`: consecutive differences. -/
def diffGo (prev : ℚ) : List ℚ → List (Option ℚ)
  | [] => []
  | x :: xs => some (x - prev) :: diffGo x xs

/-- `series.diff()`: NaN (here `none`) at position 0, then consecutive
differences. -/
def diff : List ℚ → List (Option ℚ)
  | [] => []
  | x :: xs => none :: diffGo x xs

/-- `ewm(alpha=a, min_periods=minp).mean()` with pandas defaults
(`adjust=True`, `ignore_na=False`): at each position the weighted mean of
the non-NaN observations so far with weights `(1-a)^(t-i)`, emitted only
once at least `minp` non-NaN observations have been seen.  `num`/`den` are
the running weighted numerator and weight sum, `cnt` the non-NaN count. -/
def ewmAdjGo (a : ℚ) (num den : ℚ) (cnt minp : ℕ) : List (Option ℚ) → List (Option ℚ)
  | [] => []
  | x :: xs =>
    match x with
    | some v =>
      (if cnt + 1 < minp then none else some (((1 - a) * num + v) / ((1 - a) * den + 1))) ::
        ewmAdjGo a ((1 - a) * num + v) ((1 - a) * den + 1) (cnt + 1) minp xs
    | none =>
      (if cnt < minp then none else some (((1 - a) * num) / ((1 - a) * den))) ::
        ewmAdjGo a ((1 - a) * num) ((1 - a) * den) cnt minp xs

/-- `xs.ewm(alpha=a, min_periods=minp).mean()`. -/
def ewmAdjMean (a : ℚ) (minp : ℕ) (xs : List (Option ℚ)) : List (Option ℚ) :=
  ewmAdjGo a 0 0 0 minp xs

/-- Pandas float division of two possibly-NaN cells: NaN propagates;
division by zero yields `+inf`, `-inf` or NaN depending on the sign of the
numerator. -/
def pdiv : Option ℚ → Option ℚ → PVal
  | some a, some b =>
    if b ≠ 0 then PVal.num (a / b)
    else if 0 < a then PVal.pinf
    else if a < 0 then PVal.ninf
    else PVal.nan
  | _, _ => PVal.nan

/-- `100 - (100 / (1 + rs))` in pandas float arithmetic. -/
def rsiFinal : PVal → PVal
  | PVal.num r =>
    if 1 + r ≠ 0 then PVal.num (100 - 100 / (1 + r))
    else PVal.ninf
  | PVal.pinf => PVal.num 100
  | PVal.ninf => PVal.num 100
  | PVal.nan => PVal.nan

/-- `rsi(series, period)` from bot.py: Wilder-style smoothing via
`ewm(alpha=1/period, min_periods=period)` of the clipped diffs, then
`100 - 100/(1+rs)` with `rs = ma_up / ma_down`. -/
def rsi (series : List ℚ) (period : ℕ) : List PVal :=
  let delta := diff series
  let up := delta.map (Option.map (fun d => max d 0))
  let down := delta.map (Option.map (fun d => -(min d 0)))
  let maUp := ewmAdjMean (1 / period) period up
  let maDown := ewmAdjMean (1 / period) period down
  (List.zipWith pdiv maUp maDown).map rsiFinal

/-- `macd(series)` from bot.py: `macd_line = ema(12) - ema(26)`,
`signal_line = macd_line.ewm(span=9, adjust=False).mean()`.  The histogram
is computed in the source but unused downstream, so it is omitted here. -/
def macdOf (series : List ℚ) : List ℚ × List ℚ :=
  let fastE := ema series 12
  let slowE := ema series 26
  let macdLine := List.zipWith (fun x y => x - y) fastE slowE
  let signalLine := ema macdLine 9
  (macdLine, signalLine)

/-- The dict returned by `analyze_ticker_simple` (minus the normalized
symbol string, which plays no role in any claim). -/
structure Snapshot where
  price : ℚ
  ema20 : ℚ
  ema50 : ℚ
  rsi14 : PVal
  macd : ℚ
  macdSignal : ℚ
deriving DecidableEq, Repr

/-- `analyze_ticker_simple` on a downloaded close column: drop NaN cells,
refuse series with fewer than 20 valid closes (`return None`), otherwise
take the last value of each indicator series. -/
def analyze (closesRaw : List (Option ℚ)) : Option Snapshot :=
  let close := closesRaw.filterMap id
  if close.length < 20 then none
  else some
    { price := close.getLastD 0
      ema20 := (ema close 20).getLastD 0
      ema50 := (ema close 50).getLastD 0
      rsi14 := (rsi close 14).getLastD PVal.nan
      macd := (macdOf close).1.getLastD 0
      macdSignal := (macdOf close).2.getLastD 0 }

/-- Is a pandas value strictly below a rational bound?  NaN and `+inf`
compare `False`, exactly as Python float comparison does. -/
def pvalLtQ : PVal → ℚ → Bool
  | PVal.num a, q => decide (a < q)
  | PVal.pinf, _ => false
  | PVal.ninf, _ => true
  | PVal.nan, _ => false

/-- Is a pandas value strictly above a rational bound?  NaN and `-inf`
compare `False`. -/
def pvalGtQ : PVal → ℚ → Bool
  | PVal.num a, q => decide (q < a)
  | PVal.pinf, _ => true
  | PVal.ninf, _ => false
  | PVal.nan, _ => false

/-- The signal actually computed by `cmd_rekomendasi` (bot.py line 355):
`"BUY" if ta[ema20] > ta[ema50] and ta[rsi14] < 70 else "HOLD"`. -/
def rekoSignal (ta : Snapshot) : String :=
  if decide (ta.ema20 > ta.ema50) && pvalLtQ ta.rsi14 70 then "BUY" else "HOLD"

/-- Modelled from the spec: the first-match classification rule of §4.1
(BUY when ema20 > ema50 and macdLine > macdSignal and rsi14 < 70; SELL when
ema20 < ema50 and macdLine < macdSignal and rsi14 > 65; otherwise HOLD),
stated for comparison with the classifier found in the source. -/
def specClassify (ta : Snapshot) : String :=
  if decide (ta.ema20 > ta.ema50) && decide (ta.macd > ta.macdSignal) && pvalLtQ ta.rsi14 70 then "BUY"
  else if decide (ta.ema20 < ta.ema50) && decide (ta.macd < ta.macdSignal) && pvalGtQ ta.rsi14 65 then "SELL"
  else "HOLD"

/-! ### News deduplication -/

/-- A news item as assembled by the fetchers: only title and link matter
to deduplication (`code`/`source` never affect the key). -/
structure NewsItem where
  title : String
  link : String
deriving DecidableEq, Repr

/-- The dedup key of `fetch_combined_news`:
`n.get("link") or n.get("title")` — the link when non-empty, else the
title. -/
def dedupKey (n : NewsItem) : String :=
  if n.link ≠ "" then n.link else n.title

/-- The dedup loop of `fetch_combined_news` (bot.py lines 251-257) with the
running `seen` set of keys: keep an item iff its key is non-empty and not
seen before, recording the key. -/
def dedupeGo (seen : List String) : List NewsItem → List NewsItem
  | [] => []
  | n :: ns =>
    if dedupKey n ≠ "" ∧ dedupKey n ∉ seen then n :: dedupeGo (dedupKey n :: seen) ns
    else dedupeGo seen ns

/-- Batch deduplication, starting from an empty seen set. -/
def dedupe (ns : List NewsItem) : List NewsItem :=
  dedupeGo [] ns

/-- The new-items filter of `news_auto_loop` (bot.py line 488):
`[it for it in items if it.get("link") and it.get("link") not in last_sent]`.
Only the link is consulted; empty-link items are dropped outright. -/
def newItemsOf (items : List NewsItem) (lastSent : List String) : List NewsItem :=
  items.filter (fun it => decide (it.link ≠ "" ∧ it.link ∉ lastSent))

/-- Modelled from the spec: the claimed Deduplicator filter — key is link
when non-empty else title, first occurrence of each unseen key is kept in
order, later duplicates and already-seen keys are dropped.  Stated for
comparison with the pipeline found in the source. -/
def specFilterGo (seen : List String) : List NewsItem → List NewsItem
  | [] => []
  | n :: ns =>
    if dedupKey n ∉ seen then n :: specFilterGo (dedupKey n :: seen) ns
    else specFilterGo seen ns

/-- Modelled from the spec: `Filter(candidates, seen).newItems` per §4.2 as
the claim reads it. -/
def specFilterNew (candidates : List NewsItem) (seen : List String) : List NewsItem :=
  specFilterGo seen candidates

/-- `update_last_sent(links)` from bot.py: load the persisted set, add all
links, save.  Modelled on the membership level: insert each link that is
not already present. -/
def updateLastSent (s : List String) (links : List String) : List String :=
  links.foldl (fun acc l => if l ∈ acc then acc else acc ++ [l]) s

/-! ### Alert store and evaluation -/

/-- One stored alert: `{"ticker": ..., "price": ...}` (the price is the
target, stored as whatever float the user's string parsed to). -/
structure Alert where
  ticker : String
  price : PyFloat
deriving DecidableEq, Repr

/-- Python `cur >= target` where `cur` is a finite quote and `target` a
stored float: comparisons against NaN are `False`. -/
def pyGeQ (cur : ℚ) : PyFloat → Bool
  | PyFloat.finite q => decide (q ≤ cur)
  | PyFloat.inf => false
  | PyFloat.ninf => true
  | PyFloat.nan => false

/-- Python `==` on stored floats: NaN is not equal to anything, including
itself. -/
def pyEq : PyFloat → PyFloat → Bool
  | PyFloat.finite a, PyFloat.finite b => decide (a = b)
  | PyFloat.inf, PyFloat.inf => true
  | PyFloat.ninf, PyFloat.ninf => true
  | _, _ => false

/-- Does an alert trigger this cycle?  `prices.get(tk)` is `None` → skip;
otherwise trigger when `cur >= target` (bot.py line 437). -/
def triggers (quote : String → Option ℚ) (a : Alert) : Bool :=
  match quote a.ticker with
  | none => false
  | some cur => pyGeQ cur a.price

/-- The removal on trigger (bot.py line 443):
`[x for x in alerts[uid] if not (x["ticker"]==tk and x["price"]==target)]`. -/
def removePair (tk : String) (target : PyFloat) (l : List Alert) : List Alert :=
  l.filter (fun x => !(x.ticker == tk && pyEq x.price target))

/-- The inner `for a in lst` loop of `check_alerts_loop` for one user:
iterate over the user's original list while threading the current (possibly
already reduced) stored list; on each trigger, send a notification and
filter the current list.  Returns (final stored list, notifications in
send order). -/
def checkUserLoop (quote : String → Option ℚ) (cur : List Alert) :
    List Alert → List Alert × List Alert
  | [] => (cur, [])
  | a :: rest =>
    match quote a.ticker with
    | none => checkUserLoop quote cur rest
    | some c =>
      if pyGeQ c a.price then
        let res := checkUserLoop quote (removePair a.ticker a.price cur) rest
        (res.1, a :: res.2)
      else checkUserLoop quote cur rest

/-- One user's slice of an alert-check cycle: the loop runs over the
snapshot of the list taken by `alerts.items()` while `alerts[uid]` is
reassigned on each trigger. -/
def checkUser (quote : String → Option ℚ) (lst : List Alert) : List Alert × List Alert :=
  checkUserLoop quote lst lst

/-- One full pass of `check_alerts_loop` over the alerts dict: every user's
list is processed independently; the reduced dict is then persisted via
`save_alerts`.  Returns (persisted store, (uid, alert) notifications). -/
def checkCycle (quote : String → Option ℚ) :
    List (String × List Alert) → List (String × List Alert) × List (String × Alert)
  | [] => ([], [])
  | e :: rest =>
    let res := checkUser quote e.2
    let tail := checkCycle quote rest
    ((e.1, res.1) :: tail.1, res.2.map (fun a => (e.1, a)) ++ tail.2)

/-- Iterate alert-check cycles over a sequence of quote lookups, keeping
only the persisted store. -/
def cyclesRun : List (String → Option ℚ) → List (String × List Alert) →
    List (String × List Alert)
  | [], store => store
  | q :: qs, store => cyclesRun qs (checkCycle q store).1

/-- `alerts.setdefault(uid, []); alerts[uid].append(...)` on the assoc-list
model of the alerts dict. -/
def storeAppend (uid : String) (a : Alert) :
    List (String × List Alert) → List (String × List Alert)
  | [] => [(uid, [a])]
  | e :: rest =>
    if e.1 = uid then (e.1, e.2 ++ [a]) :: rest
    else e :: storeAppend uid a rest

/-- Read one user's alert list from the store (missing user → empty). -/
def storeGet (uid : String) (st : List (String × List Alert)) : List Alert :=
  ((st.find? (fun e => e.1 == uid)).map Prod.snd).getD []

/-- `cmd_alert` after command splitting: the price argument has either
failed to parse (`float` raised, the handler replies and stores nothing) or
parsed to some Python float, which is appended unconditionally and the
store saved.  `none` result = store not written. -/
def cmdAlert (uid ticker : String) (parsedPrice : Option PyFloat)
    (alerts : List (String × List Alert)) : Option (List (String × List Alert)) :=
  match parsedPrice with
  | none => none
  | some p => some (storeAppend uid ⟨ticker, p⟩ alerts)

/-- Does the original alert `a`, when triggered, knock the stored alert `x`
out of the list (same ticker and Python-equal price)?  The per-user loop of
`check_alerts_loop` filters with exactly this pair condition on trigger. -/
def hitBy (quote : String → Option ℚ) (x a : Alert) : Bool :=
  triggers quote a && (x.ticker == a.ticker && pyEq x.price a.price)

/-- A quote lookup that knows only ticker A (test fixture). -/
def quoteAB : String → Option ℚ := fun t => if t = "A" then some 100 else none

/-- A quote lookup returning 100 for every ticker (test fixture). -/
def quoteAll : String → Option ℚ := fun _ => some 100

/-- A 20-bar close series: twelve rising bars 100..111 followed by eight
half-point dips down to 107.  Its snapshot has ema20 > ema50, rsi14 < 70
and macdLine < macdSignal. -/
def riseDipSeries : List (Option ℚ) :=
  [some 100, some 101, some 102, some 103, some 104, some 105, some 106, some 107,
   some 108, some 109, some 110, some 111, some (221/2), some 110, some (219/2),
   some 109, some (217/2), some 108, some (215/2), some 107]

/-! ### Helper lemmas: seen set and deduplication -/

/-- Inserting a batch of links never loses a member: the persisted seen set
after `update_last_sent` contains the old one. -/
theorem subset_updateLastSent (s : List String) (links : List String) :
    s ⊆ updateLastSent s links := by
  unfold updateLastSent
  induction links generalizing s with
  | nil => exact fun _ h => h
  | cons l ls ih =>
    intro x hx
    refine ih (if l ∈ s then s else s ++ [l]) ?_
    by_cases hl : l ∈ s
    · rw [if_pos hl]; exact hx
    · rw [if_neg hl]
      exact List.mem_append.mpr (Or.inl hx)

/-- Every inserted link is in the persisted seen set after `update_last_sent`. -/
theorem links_subset_updateLastSent (s : List String) (links : List String) :
    links ⊆ updateLastSent s links := by
  unfold updateLastSent
  induction links generalizing s with
  | nil => exact fun _ h => (List.not_mem_nil _ h).elim
  | cons l ls ih =>
    intro x hx
    rcases List.mem_cons.mp hx with rfl | hx2
    · have hmem : x ∈ (if x ∈ s then s else s ++ [x]) := by
        by_cases hl : x ∈ s
        · rw [if_pos hl]; exact hl
        · rw [if_neg hl]
          exact List.mem_append.mpr (Or.inr (List.mem_singleton.mpr rfl))
      have := subset_updateLastSent (if x ∈ s then s else s ++ [x]) ls
      exact this hmem
    · exact ih (if l ∈ s then s else s ++ [l]) hx2

/-- The dedup loop emits a sublist of its input (order preserved, items only
dropped). -/
theorem dedupeGo_sublist (ns : List NewsItem) : ∀ seen, (dedupeGo seen ns).Sublist ns := by
  induction ns with
  | nil => intro seen; simp [dedupeGo]
  | cons n ns ih =>
    intro seen
    rw [dedupeGo]
    split
    · exact (ih _).cons₂ n
    · exact (ih _).cons n

/-- The dedup loop emits pairwise-distinct keys, none of them already seen. -/
theorem dedupeGo_keys_nodup (ns : List NewsItem) : ∀ seen,
    ((dedupeGo seen ns).map dedupKey).Nodup
    ∧ ∀ k ∈ (dedupeGo seen ns).map dedupKey, k ∉ seen := by
  induction ns with
  | nil => intro seen; simp [dedupeGo]
  | cons n ns ih =>
    intro seen
    rw [dedupeGo]
    split
    · rename_i h
      refine ⟨?_, ?_⟩
      · rw [List.map_cons, List.nodup_cons]
        refine ⟨fun hk => ?_, (ih (dedupKey n :: seen)).1⟩
        exact ((ih (dedupKey n :: seen)).2 _ hk) (List.mem_cons_self _ _)
      · intro k hk
        rw [List.map_cons] at hk
        rcases List.mem_cons.mp hk with rfl | hk2
        · exact h.2
        · have := (ih (dedupKey n :: seen)).2 k hk2
          exact fun hs => this (List.mem_cons_of_mem _ hs)
    · exact ih seen

/-- First occurrence wins: the first item in the batch carrying a given
non-empty unseen key is kept by the dedup loop. -/
theorem dedupeGo_first (pre : List NewsItem) : ∀ (seen : List String) (n : NewsItem)
    (post : List NewsItem), dedupKey n ≠ "" → dedupKey n ∉ seen →
    dedupKey n ∉ pre.map dedupKey → n ∈ dedupeGo seen (pre ++ n :: post) := by
  induction pre with
  | nil =>
    intro seen n post h1 h2 _
    rw [List.nil_append, dedupeGo, if_pos ⟨h1, h2⟩]
    exact List.mem_cons_self _ _
  | cons m pre ih =>
    intro seen n post h1 h2 h3
    have hne : dedupKey n ≠ dedupKey m := by
      intro he; exact h3 (by rw [List.map_cons]; exact List.mem_cons.mpr (Or.inl he))
    have h3' : dedupKey n ∉ pre.map dedupKey := by
      intro hm; exact h3 (by rw [List.map_cons]; exact List.mem_cons_of_mem _ hm)
    rw [List.cons_append, dedupeGo]
    split
    · refine List.mem_cons_of_mem _ (ih _ n post h1 ?_ h3')
      intro hc
      rcases List.mem_cons.mp hc with he | hs
      · exact hne he
      · exact h2 hs
    · exact ih _ n post h1 h2 h3'

/-- Membership in the new-items filter of the news loop. -/
theorem mem_newItemsOf (items : List NewsItem) (seen : List String) (it : NewsItem) :
    it ∈ newItemsOf items seen ↔ it ∈ items ∧ it.link ≠ "" ∧ it.link ∉ seen := by
  simp [newItemsOf, List.mem_filter]

/-- C3: `analyze_ticker_simple` returns no snapshot exactly when the series
has fewer than 20 valid (non-null) closes; in particular a 19-bar series is
refused and a 20-bar series yields a defined snapshot. -/
theorem analyze_insufficient_iff :
    (∀ closes : List (Option ℚ), analyze closes = none ↔ (closes.filterMap id).length < 20)
    ∧ analyze (List.replicate 19 (some (10:ℚ))) = none
    ∧ (analyze (List.replicate 20 (some (10:ℚ)))).isSome = true := by
  refine ⟨fun closes => ?_, by decide, by decide⟩
  unfold analyze
  by_cases h : (closes.filterMap id).length < 20
  · simp [h]
  · simp [h]

/-- C3 witness: a concrete 5-bar series is refused, via the general theorem. -/
theorem analyze_insufficient_iff_witness :
    analyze (List.replicate 5 (some (3:ℚ))) = none :=
  (analyze_insufficient_iff.1 _).mpr (by decide)

/-- C9: the persisted seen set only grows: one `update_last_sent` write, and
any finite sequence of such writes, produces a superset of the previously
persisted set (no key is ever removed; `update_last_sent` is the only writer
of the seen-set file in the source). -/
theorem seenSet_only_grows (s : List String) :
    (∀ links, s ⊆ updateLastSent s links)
    ∧ ∀ batches : List (List String), s ⊆ List.foldl updateLastSent s batches := by
  refine ⟨fun links => subset_updateLastSent s links, fun batches => ?_⟩
  induction batches generalizing s with
  | nil => exact fun _ h => h
  | cons b bs ih =>
    rw [List.foldl_cons]
    exact List.Subset.trans (subset_updateLastSent s b) (ih (updateLastSent s b))

/-- C9 witness: a key present before two successive writes is still present
after them. -/
theorem seenSet_only_grows_witness :
    "k" ∈ List.foldl updateLastSent ["k"] [["a"], ["b"]] :=
  (seenSet_only_grows ["k"]).2 [["a"], ["b"]] (by decide)

/-- C6: running the news cycle's deduplication twice on the same candidate
batch, persisting the seen set in between exactly as `news_auto_loop` does
(adding the links of the first run's new items), yields no new items on the
second run.  The first run's result is unchanged by definition (the filter
is a pure function of the batch and the seen set). -/
theorem dedup_second_run_empty (candidates : List NewsItem) (seen : List String) :
    newItemsOf (dedupe candidates)
      (updateLastSent seen ((newItemsOf (dedupe candidates) seen).map NewsItem.link)) = [] := by
  rw [newItemsOf, List.filter_eq_nil_iff]
  intro it hit
  simp only [decide_eq_true_eq, not_and, not_not]
  intro hlink
  by_cases hseen : it.link ∈ seen
  · exact subset_updateLastSent _ _ hseen
  · have hmem : it ∈ newItemsOf (dedupe candidates) seen :=
      (mem_newItemsOf _ _ _).mpr ⟨hit, hlink, hseen⟩
    refine links_subset_updateLastSent _ _ ?_
    exact List.mem_map.mpr ⟨it, hmem, rfl⟩

/-- C4 counterexample: a candidate with an empty link and a fresh title.
The claimed Deduplicator keeps it as a new item (its key, the title, is
unseen), but the source pipeline drops it: the news loop's new-items filter
requires a non-empty link. -/
theorem dedupPipeline_cex :
    specFilterNew [{ title := "T", link := "" }] [] = [{ title := "T", link := "" }]
    ∧ newItemsOf (dedupe [{ title := "T", link := "" }]) [] = [] := by
  constructor
  · rfl
  · rfl

/-- C4 (amended): within the batch the dedup key is the link when non-empty
else the title, the kept items form a stable sublist with pairwise-distinct
keys, and the first occurrence of each non-empty key is kept; but across
batches an item counts as new only when its LINK is non-empty and not in
the seen set — empty-link items are never new, whatever their title. -/
theorem dedupPipeline_amended (candidates : List NewsItem) (seen : List String) :
    (dedupe candidates).Sublist candidates
    ∧ ((dedupe candidates).map dedupKey).Nodup
    ∧ (∀ pre n post, candidates = pre ++ n :: post → dedupKey n ≠ "" →
        dedupKey n ∉ pre.map dedupKey → n ∈ dedupe candidates)
    ∧ (∀ it, it ∈ newItemsOf (dedupe candidates) seen ↔
        it ∈ dedupe candidates ∧ it.link ≠ "" ∧ it.link ∉ seen) := by
  refine ⟨dedupeGo_sublist candidates [], (dedupeGo_keys_nodup candidates []).1,
    ?_, fun it => mem_newItemsOf _ _ _⟩
  intro pre n post hsplit h1 h3
  rw [dedupe, hsplit]
  exact dedupeGo_first pre [] n post h1 (List.not_mem_nil _) h3

/-- C4 witness: the first of two items sharing a link is kept by the batch
dedup and is a new item against a seen set not containing the link. -/
theorem dedupPipeline_amended_witness :
    ({ title := "t1", link := "L" } : NewsItem) ∈ dedupe [⟨"t1", "L"⟩, ⟨"t2", "L"⟩]
    ∧ ({ title := "t1", link := "L" } : NewsItem) ∈
        newItemsOf (dedupe [⟨"t1", "L"⟩, ⟨"t2", "L"⟩]) ["X"] := by
  have hfirst : ({ title := "t1", link := "L" } : NewsItem) ∈ dedupe [⟨"t1", "L"⟩, ⟨"t2", "L"⟩] :=
    (dedupPipeline_amended [⟨"t1", "L"⟩, ⟨"t2", "L"⟩] ["X"]).2.2.1
      [] ⟨"t1", "L"⟩ [⟨"t2", "L"⟩] rfl (by decide) (by decide)
  exact ⟨hfirst,
    ((dedupPipeline_amended [⟨"t1", "L"⟩, ⟨"t2", "L"⟩] ["X"]).2.2.2 _).mpr
      ⟨hfirst, by decide, by decide⟩⟩

/-- `alerts[uid].append` behaves as a pure append on the user's slot. -/
theorem storeGet_storeAppend (uid : String) (a : Alert) :
    ∀ st, storeGet uid (storeAppend uid a st) = storeGet uid st ++ [a] := by
  intro st
  induction st with
  | nil =>
    simp [storeAppend, storeGet, List.find?_cons_of_pos]
  | cons e rest ih =>
    rw [storeAppend]
    split
    · rename_i h
      have hb1 : (fun e2 : String × List Alert => e2.1 == uid) (e.1, e.2 ++ [a]) = true := by
        simp [h]
      have hb2 : (fun e2 : String × List Alert => e2.1 == uid) e = true := by simp [h]
      rw [storeGet, storeGet,
        @List.find?_cons_of_pos _ (fun e2 : String × List Alert => e2.1 == uid)
          (e.1, e.2 ++ [a]) rest hb1,
        @List.find?_cons_of_pos _ (fun e2 : String × List Alert => e2.1 == uid) e rest hb2]
      rfl
    · rename_i h
      have hb : ¬ ((fun e2 : String × List Alert => e2.1 == uid) e = true) := by simp [h]
      rw [storeGet, storeGet,
        @List.find?_cons_of_neg _ (fun e2 : String × List Alert => e2.1 == uid) e
          (storeAppend uid a rest) hb,
        @List.find?_cons_of_neg _ (fun e2 : String × List Alert => e2.1 == uid) e rest hb]
      exact ih

/-- C7 (amended): the `/alert` handler performs no validation of the parsed
price value at all: it stores nothing only when `float(...)` raises, and any
successfully parsed price — negative, zero, infinite or NaN included — is
appended to the owner's list and persisted. -/
theorem cmdAlert_no_validation (uid ticker : String) (p : PyFloat)
    (st : List (String × List Alert)) :
    cmdAlert uid ticker none st = none
    ∧ cmdAlert uid ticker (some p) st = some (storeAppend uid ⟨ticker, p⟩ st)
    ∧ storeGet uid (storeAppend uid ⟨ticker, p⟩ st) = storeGet uid st ++ [⟨ticker, p⟩] :=
  ⟨rfl, rfl, storeGet_storeAppend uid _ st⟩

/-- C7 counterexample: `/alert BBCA -5` parses to the finite, non-positive
float -5; the claim says it is rejected, but the handler stores it. -/
theorem cmdAlert_cex :
    cmdAlert "1" "BBCA" (some (PyFloat.finite (-5))) [] =
      some [("1", [{ ticker := "BBCA", price := PyFloat.finite (-5) }])] := by
  rfl

/-! ### Helper lemmas: alert evaluation -/

/-- Equal stored prices (under Python `==`) trigger identically. -/
theorem pyEq_geq (c : ℚ) {p q : PyFloat} (h : pyEq p q = true) : pyGeQ c p = pyGeQ c q := by
  cases p <;> cases q <;> simp_all [pyEq, pyGeQ]

/-- A target that triggers compares equal to itself under Python `==`
(a NaN target never triggers, and NaN is the only self-unequal float). -/
theorem pyEq_refl_of_ge {c : ℚ} {p : PyFloat} (h : pyGeQ c p = true) : pyEq p p = true := by
  cases p <;> simp_all [pyEq, pyGeQ]

/-- A stored alert hit by some triggered alert triggers itself. -/
theorem hitBy_triggers {quote : String → Option ℚ} {x a : Alert}
    (h : hitBy quote x a = true) : triggers quote x = true := by
  rw [hitBy, Bool.and_eq_true, Bool.and_eq_true] at h
  obtain ⟨hta, htk, hpe⟩ := h
  have hxt : x.ticker = a.ticker := eq_of_beq htk
  unfold triggers at hta ⊢
  rw [hxt]
  rcases hq : quote a.ticker with _ | c
  · rw [hq] at hta
    exact absurd hta Bool.false_ne_true
  · rw [hq] at hta
    have h2 : pyGeQ c a.price = true := hta
    show pyGeQ c x.price = true
    rw [pyEq_geq c hpe]
    exact h2

/-- Over the original list, being hit by some alert is the same as
triggering oneself. -/
theorem any_hitBy (quote : String → Option ℚ) (lst : List Alert) (x : Alert) (hx : x ∈ lst) :
    lst.any (hitBy quote x) = triggers quote x := by
  cases ht : triggers quote x
  · rw [List.any_eq_false]
    intro a _ hcon
    rw [hitBy_triggers hcon] at ht
    exact absurd ht (by simp)
  · rw [List.any_eq_true]
    refine ⟨x, hx, ?_⟩
    have hrefl : pyEq x.price x.price = true := by
      unfold triggers at ht
      rcases hq : quote x.ticker with _ | c
      · rw [hq] at ht; exact absurd ht (by simp)
      · rw [hq] at ht
        exact pyEq_refl_of_ge (c := c) ht
    rw [hitBy, ht, hrefl]
    simp

/-- Closed form of the per-user loop of `check_alerts_loop`: the final
stored list keeps exactly the alerts hit by no triggered iteration, and the
notifications are the triggered iterations in order. -/
theorem checkUserLoop_eq (quote : String → Option ℚ) :
    ∀ (rest cur : List Alert),
      checkUserLoop quote cur rest =
        (cur.filter (fun x => !(rest.any (hitBy quote x))), rest.filter (triggers quote)) := by
  intro rest
  induction rest with
  | nil => intro cur; simp [checkUserLoop]
  | cons a rest ih =>
    intro cur
    rw [checkUserLoop]
    rcases hq : quote a.ticker with _ | c
    · have ht : triggers quote a = false := by unfold triggers; rw [hq]
      simp only [hq, ih]
      congr 1
      · exact List.filter_congr fun x _ => by simp [List.any_cons, hitBy, ht]
      · rw [List.filter_cons_of_neg (by simp [ht])]
    · cases hge : pyGeQ c a.price
      · have ht : triggers quote a = false := by unfold triggers; rw [hq]; exact hge
        simp only [hq, hge, ih]
        rw [if_neg (by simp)]
        congr 1
        · exact List.filter_congr fun x _ => by simp [List.any_cons, hitBy, ht]
        · rw [List.filter_cons_of_neg (by simp [ht])]
      · have ht : triggers quote a = true := by unfold triggers; rw [hq]; exact hge
        simp only [hq, hge, if_true, ih]
        congr 1
        · rw [removePair, List.filter_filter]
          exact List.filter_congr fun x _ => by
            simp [List.any_cons, hitBy, ht, Bool.not_or, Bool.and_comm]
        · rw [List.filter_cons_of_pos ht]

/-- One user's slice of the cycle: kept = non-triggering alerts,
notifications = triggering alerts, in order. -/
theorem checkUser_eq (quote : String → Option ℚ) (lst : List Alert) :
    checkUser quote lst =
      (lst.filter (fun x => !(triggers quote x)), lst.filter (triggers quote)) := by
  rw [checkUser, checkUserLoop_eq]
  congr 1
  exact List.filter_congr fun x hx => by rw [any_hitBy quote lst x hx]

/-- Closed form of a full alert-check cycle over the store. -/
theorem checkCycle_eq (quote : String → Option ℚ) :
    ∀ store : List (String × List Alert),
      checkCycle quote store =
        (store.map (fun e => (e.1, e.2.filter (fun x => !(triggers quote x)))),
         store.flatMap (fun e => (e.2.filter (triggers quote)).map (fun a => (e.1, a)))) := by
  intro store
  induction store with
  | nil => rfl
  | cons e rest ih =>
    simp only [checkCycle, checkUser_eq, ih, List.map_cons, List.flatMap_cons]

/-- The notifications of a cycle are exactly the stored triggering alerts. -/
theorem mem_checkCycle_sent (quote : String → Option ℚ) (store : List (String × List Alert))
    (uid : String) (a : Alert) :
    (uid, a) ∈ (checkCycle quote store).2 ↔
      ∃ lst, (uid, lst) ∈ store ∧ a ∈ lst ∧ triggers quote a = true := by
  rw [checkCycle_eq]
  constructor
  · intro h
    obtain ⟨⟨u, l⟩, he, hm⟩ := List.mem_flatMap.mp h
    obtain ⟨a2, ha2, heq⟩ := List.mem_map.mp hm
    rw [Prod.mk.injEq] at heq
    obtain ⟨h1, h2⟩ := heq
    subst h1
    subst h2
    obtain ⟨hmem, htr⟩ := List.mem_filter.mp ha2
    exact ⟨l, he, hmem, htr⟩
  · rintro ⟨lst, hmem, ha, ht⟩
    refine List.mem_flatMap.mpr ⟨(uid, lst), hmem, ?_⟩
    exact List.mem_map.mpr ⟨a, List.mem_filter.mpr ⟨ha, ht⟩, rfl⟩

/-- A triggering alert is in no list of the persisted store after a cycle. -/
theorem checkCycle_removed (quote : String → Option ℚ) (store : List (String × List Alert))
    (uid : String) (lst2 : List Alert) (a : Alert)
    (h2 : (uid, lst2) ∈ (checkCycle quote store).1) (ht : triggers quote a = true) :
    a ∉ lst2 := by
  rw [checkCycle_eq] at h2
  obtain ⟨⟨u, l⟩, _, heq⟩ := List.mem_map.mp h2
  rw [Prod.mk.injEq] at heq
  obtain ⟨_, hl⟩ := heq
  subst hl
  intro hin
  have hneg := (List.mem_filter.mp hin).2
  rw [ht] at hneg
  exact absurd hneg (by simp)

/-- Later cycles only shrink each user's list. -/
theorem cyclesRun_shrinks (quotes : List (String → Option ℚ)) :
    ∀ (store : List (String × List Alert)) (uid : String) (lst2 : List Alert),
      (uid, lst2) ∈ cyclesRun quotes store → ∃ l, (uid, l) ∈ store ∧ lst2 ⊆ l := by
  induction quotes with
  | nil => intro store uid lst2 h; exact ⟨lst2, h, fun _ hz => hz⟩
  | cons q qs ih =>
    intro store uid lst2 h
    rw [cyclesRun] at h
    obtain ⟨l1, hl1, hsub⟩ := ih _ uid lst2 h
    rw [checkCycle_eq] at hl1
    obtain ⟨⟨u, l⟩, he, heq⟩ := List.mem_map.mp hl1
    rw [Prod.mk.injEq] at heq
    obtain ⟨h1, h2⟩ := heq
    subst h1
    refine ⟨l, he, fun z hz => ?_⟩
    have hz1 : z ∈ l.filter (fun x => !(triggers q x)) := by rw [h2]; exact hsub hz
    exact (List.mem_filter.mp hz1).1

/-- C5: one pass of `check_alerts_loop` dispatches a notification exactly for
every stored alert whose ticker has an available quote at or above the
target; every such alert is removed from the persisted store in the same
cycle, and it is absent from the store after any sequence of later cycles
(fire-once). -/
theorem alertCycle_fireOnce (quote : String → Option ℚ) (store : List (String × List Alert)) :
    (∀ uid a, (uid, a) ∈ (checkCycle quote store).2 ↔
      ∃ lst, (uid, lst) ∈ store ∧ a ∈ lst ∧ triggers quote a = true)
    ∧ (∀ uid a lst2, (uid, a) ∈ (checkCycle quote store).2 →
        (uid, lst2) ∈ (checkCycle quote store).1 → a ∉ lst2)
    ∧ (∀ uid a lst2 quotes, (uid, a) ∈ (checkCycle quote store).2 →
        (uid, lst2) ∈ cyclesRun quotes (checkCycle quote store).1 → a ∉ lst2) := by
  have htr : ∀ uid a, (uid, a) ∈ (checkCycle quote store).2 → triggers quote a = true := by
    intro uid a h
    obtain ⟨_, _, _, ht⟩ := (mem_checkCycle_sent quote store uid a).mp h
    exact ht
  refine ⟨fun uid a => mem_checkCycle_sent quote store uid a, ?_, ?_⟩
  · intro uid a lst2 hsent hst
    exact checkCycle_removed _ _ _ _ _ hst (htr uid a hsent)
  · intro uid a lst2 quotes hsent hst hin
    obtain ⟨l, hl, hsub⟩ := cyclesRun_shrinks quotes _ uid lst2 hst
    exact checkCycle_removed _ _ _ _ _ hl (htr uid a hsent) (hsub hin)

/-- C5 witness: with one user holding alerts on A (target 90) and B, and a
quote only for A at 100, the A-alert is notified and the persisted store
keeps only the B-alert, which does not contain the A-alert. -/
theorem alertCycle_fireOnce_witness :
    (⟨"A", PyFloat.finite 90⟩ : Alert) ∉ [(⟨"B", PyFloat.finite 10⟩ : Alert)] :=
  (alertCycle_fireOnce quoteAB [("7", [⟨"A", PyFloat.finite 90⟩, ⟨"B", PyFloat.finite 10⟩])]).2.1
    "7" ⟨"A", PyFloat.finite 90⟩ [⟨"B", PyFloat.finite 10⟩] (by decide) (by decide)

/-- C8: alerts whose ticker has no available quote this cycle are left in
the persisted store unchanged (same items, same order, same multiplicity)
and hence are re-evaluated next cycle. -/
theorem alertCycle_unavailable_untouched (quote : String → Option ℚ) (lst : List Alert) :
    ((checkUser quote lst).1.filter (fun x => (quote x.ticker).isNone) =
      lst.filter (fun x => (quote x.ticker).isNone))
    ∧ (∀ a ∈ lst, quote a.ticker = none → a ∈ (checkUser quote lst).1) := by
  rw [checkUser_eq]
  constructor
  · rw [List.filter_filter]
    refine List.filter_congr fun x _ => ?_
    rcases hq : quote x.ticker with _ | c
    · have ht : triggers quote x = false := by unfold triggers; rw [hq]
      simp [ht, hq]
    · simp [hq]
  · intro a ha hq
    have ht : triggers quote a = false := by unfold triggers; rw [hq]
    exact List.mem_filter.mpr ⟨ha, by rw [ht]; rfl⟩

/-- C8 witness: the scenario of the spec — alerts on A and B, quote only
for A — leaves the B-alert in the store. -/
theorem alertCycle_unavailable_witness :
    (⟨"B", PyFloat.finite 10⟩ : Alert) ∈
      (checkUser quoteAB [⟨"A", PyFloat.finite 90⟩, ⟨"B", PyFloat.finite 10⟩]).1 :=
  (alertCycle_unavailable_untouched quoteAB
      [⟨"A", PyFloat.finite 90⟩, ⟨"B", PyFloat.finite 10⟩]).2
    ⟨"B", PyFloat.finite 10⟩ (by decide) (by decide)

/-- C10: when several identical copies of an alert are stored and the alert
triggers, the cycle dispatches one notification per stored copy, and the
persisted list keeps no alert with that (ticker, price) pair. -/
theorem alertCycle_duplicates (quote : String → Option ℚ) (lst : List Alert) (a : Alert)
    (h : triggers quote a = true) :
    (checkUser quote lst).2.count a = lst.count a
    ∧ ∀ x ∈ (checkUser quote lst).1, x.ticker = a.ticker → pyEq x.price a.price = true → False := by
  rw [checkUser_eq]
  constructor
  · exact List.count_filter h
  · intro x hx htk hpe
    have hxf : (!(triggers quote x)) = true := (List.mem_filter.mp hx).2
    have hxt : triggers quote x = true := by
      unfold triggers at h ⊢
      rw [htk]
      rcases hq : quote a.ticker with _ | c
      · rw [hq] at h
        exact absurd h Bool.false_ne_true
      · rw [hq] at h
        have h2 : pyGeQ c a.price = true := h
        show pyGeQ c x.price = true
        rw [pyEq_geq c hpe]
        exact h2
    rw [hxt] at hxf
    exact absurd hxf (by simp)

/-- C10 witness: two identical stored copies produce two notifications. -/
theorem alertCycle_duplicates_witness :
    (checkUser quoteAll [⟨"BBCA", PyFloat.finite 90⟩, ⟨"BBCA", PyFloat.finite 90⟩]).2.count
      ⟨"BBCA", PyFloat.finite 90⟩ = 2 := by
  have h := (alertCycle_duplicates quoteAll
    [⟨"BBCA", PyFloat.finite 90⟩, ⟨"BBCA", PyFloat.finite 90⟩]
    ⟨"BBCA", PyFloat.finite 90⟩ (by decide)).1
  rw [h]
  decide

/-! ### Helper lemmas: indicators on constant series -/

/-- The EMA recursion is a fixed point on a constant series. -/
theorem emaGo_const (a c : ℚ) : ∀ k, emaGo a c (List.replicate k c) = List.replicate k c := by
  intro k
  induction k with
  | zero => rfl
  | succ k ih =>
    simp only [List.replicate_succ, emaGo]
    have hy : (1 - a) * c + a * c = c := by ring
    rw [hy, ih]

/-- Every EMA of a constant series is that constant at every bar. -/
theorem ema_const (c : ℚ) (p : ℕ) : ∀ n, ema (List.replicate n c) p = List.replicate n c := by
  intro n
  cases n with
  | zero => rfl
  | succ n =>
    rw [List.replicate_succ]
    simp only [ema]
    rw [emaGo_const]

/-- Differences of a constant series are all zero. -/
theorem diffGo_const (c : ℚ) : ∀ k, diffGo c (List.replicate k c) = List.replicate k (some 0) := by
  intro k
  induction k with
  | zero => rfl
  | succ k ih =>
    simp only [List.replicate_succ, diffGo]
    rw [sub_self, ih]

/-- The adjusted EWM of an all-zero observation stream emits `some 0` at
every position from the `min_periods` threshold on; in particular at the
last position once enough observations have accumulated. -/
theorem ewmAdjGo_zeros (a : ℚ) : ∀ (k : ℕ) (den : ℚ) (cnt : ℕ) (d : Option ℚ),
    1 ≤ k → 14 ≤ cnt + k →
    (ewmAdjGo a 0 den cnt 14 (List.replicate k (some 0))).getLastD d = some 0 := by
  intro k
  induction k with
  | zero => intro den cnt d h1 _; exact absurd h1 (by decide)
  | succ k ih =>
    intro den cnt d _ h14
    simp only [List.replicate_succ, ewmAdjGo]
    have hnum : (1 - a) * 0 + 0 = 0 := by ring
    rw [hnum]
    cases k with
    | zero =>
      simp only [List.replicate, ewmAdjGo]
      rw [List.getLastD_cons, List.getLastD_nil]
      rw [if_neg (by omega)]
      rw [zero_div]
    | succ k2 =>
      rw [List.getLastD_cons]
      exact ih ((1 - a) * den + 1) (cnt + 1) _ (by omega) (by omega)

/-- Pushing a map through `getLastD` when the default is also mapped. -/
theorem getLastD_map_pv (g : Option ℚ → PVal) :
    ∀ (l : List (Option ℚ)) (d : Option ℚ), (l.map g).getLastD (g d) = g (l.getLastD d) := by
  intro l
  induction l with
  | nil => intro d; rfl
  | cons x xs ih =>
    intro d
    rw [List.map_cons, List.getLastD_cons, List.getLastD_cons]
    exact ih x

/-- On a constant series of at least 20 bars, the final RSI(14) value is
NaN: both the smoothed gain and the smoothed loss are 0, so `rs = 0/0` is
NaN and `100 - 100/(1+rs)` stays NaN. -/
theorem rsi_const_last (c : ℚ) (n : ℕ) (hn : 20 ≤ n) :
    (rsi (List.replicate n c) 14).getLastD PVal.nan = PVal.nan := by
  obtain ⟨m, rfl⟩ : ∃ m, n = m + 20 := ⟨n - 20, by omega⟩
  have hrep : List.replicate (m + 20) c = c :: List.replicate (m + 19) c := by
    rw [show m + 20 = (m + 19) + 1 by omega, List.replicate_succ]
  have hdiff : diff (List.replicate (m + 20) c) = none :: List.replicate (m + 19) (some 0) := by
    rw [hrep]
    simp only [diff]
    rw [diffGo_const]
  have hup : (diff (List.replicate (m + 20) c)).map (Option.map (fun d => max d 0)) =
      none :: List.replicate (m + 19) (some 0) := by
    rw [hdiff, List.map_cons, List.map_replicate]
    norm_num
  have hdown : (diff (List.replicate (m + 20) c)).map (Option.map (fun d => -(min d 0))) =
      none :: List.replicate (m + 19) (some 0) := by
    rw [hdiff, List.map_cons, List.map_replicate]
    norm_num
  have hMA : ∀ a : ℚ, ewmAdjMean a 14 (none :: List.replicate (m + 19) (some 0)) =
      none :: ewmAdjGo a 0 0 0 14 (List.replicate (m + 19) (some 0)) := by
    intro a
    simp only [ewmAdjMean, ewmAdjGo]
    norm_num
  simp only [rsi]
  rw [hup, hdown, hMA, List.zipWith_same, List.map_map]
  have hg := getLastD_map_pv (rsiFinal ∘ fun x => pdiv x x)
    (none :: ewmAdjGo (1 / ((14:ℕ):ℚ)) 0 0 0 14 (List.replicate (m + 19) (some 0))) none
  rw [show (rsiFinal ∘ fun x => pdiv x x) none = PVal.nan from rfl] at hg
  rw [hg, List.getLastD_cons]
  rw [ewmAdjGo_zeros (1 / ((14:ℕ):ℚ)) (m + 19) 0 0 none (by omega) (by omega)]
  show rsiFinal (pdiv (some 0) (some 0)) = PVal.nan
  norm_num [pdiv, rsiFinal]

/-- C2 (amended): on a constant series every EMA equals the constant at
every bar; but the final RSI(14) of a constant series with at least 20 bars
is NaN, not 100 — both the smoothed gain and loss are 0, giving `rs = 0/0`.
The avgLoss = 0 special value of 100 arises only when avgGain is positive
(via `rs = +inf`), which a constant series never produces. -/
theorem constSeries_ema_rsi (c : ℚ) (p n : ℕ) :
    ema (List.replicate n c) p = List.replicate n c
    ∧ (20 ≤ n → (rsi (List.replicate n c) 14).getLastD PVal.nan = PVal.nan) :=
  ⟨ema_const c p n, fun hn => rsi_const_last c n hn⟩

/-- C2 witness: the 20-bar constant series at 10, via the general theorem. -/
theorem constSeries_ema_rsi_witness :
    ema (List.replicate 20 (10:ℚ)) 20 = List.replicate 20 (10:ℚ)
    ∧ (rsi (List.replicate 20 (10:ℚ)) 14).getLastD PVal.nan = PVal.nan :=
  ⟨(constSeries_ema_rsi 10 20 20).1, (constSeries_ema_rsi 10 20 20).2 (by decide)⟩

/-- C1 (amended): the recommendation signal is BUY exactly when
ema20 > ema50 and rsi14 < 70; MACD is never consulted and SELL is never
produced; every BUY of the spec's richer rule is also a BUY of the code. -/
theorem rekoSignal_amended (ta : Snapshot) :
    (rekoSignal ta = "BUY" ↔ (ta.ema20 > ta.ema50 ∧ pvalLtQ ta.rsi14 70 = true))
    ∧ rekoSignal ta ≠ "SELL"
    ∧ (specClassify ta = "BUY" → rekoSignal ta = "BUY") := by
  refine ⟨?_, ?_, ?_⟩
  · unfold rekoSignal
    cases hb : (decide (ta.ema20 > ta.ema50) && pvalLtQ ta.rsi14 70) with
    | false =>
      rw [if_neg (by simp [hb])]
      constructor
      · intro h; exact absurd h (by decide)
      · rintro ⟨h1, h2⟩
        rw [decide_eq_true h1, h2] at hb
        exact absurd hb (by decide)
    | true =>
      rw [if_pos rfl]
      rw [Bool.and_eq_true] at hb
      exact ⟨fun _ => ⟨of_decide_eq_true hb.1, hb.2⟩, fun _ => rfl⟩
  · unfold rekoSignal
    split
    · decide
    · decide
  · intro hspec
    unfold specClassify at hspec
    unfold rekoSignal
    by_cases hc : (decide (ta.ema20 > ta.ema50) && decide (ta.macd > ta.macdSignal) &&
        pvalLtQ ta.rsi14 70) = true
    · rw [Bool.and_eq_true, Bool.and_eq_true] at hc
      obtain ⟨⟨h1, _⟩, h3⟩ := hc
      rw [if_pos (by rw [h1, h3]; decide)]
    · rw [if_neg hc] at hspec
      exfalso
      split at hspec
      · exact absurd hspec (by decide)
      · exact absurd hspec (by decide)

/-- C1 witness: a snapshot satisfying the full spec rule for BUY is also
classified BUY by the code. -/
theorem rekoSignal_amended_witness :
    rekoSignal (⟨100, 2, 1, PVal.num 50, 1, 0⟩ : Snapshot) = "BUY" :=
  (rekoSignal_amended _).2.2 (by decide)

section
attribute [local semireducible] Rat.add Rat.sub Rat.mul Rat.inv

set_option maxRecDepth 40000 in
/-- C1 counterexample: on the 20-bar rise-then-dip series the code's
recommendation is BUY (ema20 > ema50 and rsi14 < 70 suffice), while the
spec's first-match rule yields HOLD because macdLine < macdSignal there.
The code consults neither MACD nor any SELL branch. -/
theorem rekoSignal_cex :
    (analyze riseDipSeries).map rekoSignal = some "BUY"
    ∧ (analyze riseDipSeries).map specClassify = some "HOLD" := by
  constructor
  · decide
  · decide

set_option maxRecDepth 40000 in
/-- C2 counterexample: the analyzed 20-bar constant series at 10 has
rsi14 = NaN, and NaN is not the claimed value 100. -/
theorem rsi_const_cex :
    (analyze (List.replicate 20 (some (10:ℚ)))).map Snapshot.rsi14 = some PVal.nan
    ∧ PVal.nan ≠ PVal.num 100 := by
  constructor
  · decide
  · decide

end
